import Mathlib

/-!
Verification development for a document-summarization backend.

The pipeline has three core components, modelled here as pure functions over
`List Char` (Python strings are sequences of code points, so a character list
is a faithful shallow embedding for the string operations used):

* a chunker `chunk_text_by_tokens` that splits a long text into
  boundary-respecting pieces bounded by a character budget,
* a summarization orchestrator `generate_summary` that decides between
  returning the text, one model call, or chunk-and-combine; the external
  summarization model is passed in as an oracle
  `List Char → Nat → Nat → Option (List Char)` (`none` = the call raised),
* a relevance highlighter `top_k_sentences` that scores sentences of the
  original text against the summary; the external TF-IDF/cosine scoring is
  passed in as an oracle `Option (List ℚ)` (`none` = vectorization raised),
  with the numeric scores modelled in `ℚ`,
* a PDF text extractor `extract_text_from_pdf_fileobj` over an abstract
  ordered page sequence `List (Option (List Char))`.
-/

namespace Smith

/-- The ASCII whitespace characters recognised by Python's `str.strip` and
`str.split` (sufficient for the texts modelled here). -/
def pyIsSpace (c : Char) : Bool :=
  c = ' ' || c = '\t' || c = '\n' || c = '\r' || c = '\x0b' || c = '\x0c'

/-- Python `s.strip()`: remove leading and trailing whitespace. -/
def pyStrip (l : List Char) : List Char :=
  ((l.dropWhile pyIsSpace).reverse.dropWhile pyIsSpace).reverse

/-- Does `sub` occur in `text` starting at index `i`? -/
def matchAt (text sub : List Char) (i : Nat) : Bool :=
  (text.drop i).take sub.length == sub

/-- Search downward: largest `j' < j` with a match of `sub` at `s + j'`. -/
def rfindAux (text sub : List Char) (s : Nat) : Nat → Option Nat
  | 0 => none
  | j + 1 => if matchAt text sub (s + j) then some (s + j) else rfindAux text sub s j

/-- Python `text.rfind(sub, s, e)` for a nonempty `sub` and `0 ≤ s ≤ e`:
the largest index `i` with `s ≤ i`, `i + sub.length ≤ e` and `sub` matching
`text` at `i`; `none` models the `-1` result. -/
def pyRfind (text sub : List Char) (s e : Nat) : Option Nat :=
  rfindAux text sub s (e + 1 - sub.length - s)

/-- One iteration of the chunker's boundary search (summarize.py lines 20–36):
take the window `[start, min(n, start+approx_chars))`; if it does not reach the
end of the text, look backward for a newline, then `". "`, then a space, and
advance past the boundary character; otherwise hard-cut at the window end. -/
def splitEnd (text : List Char) (approx_chars start : Nat) : Nat :=
  let n := text.length
  let end0 := min n (start + approx_chars)
  if end0 < n then
    match pyRfind text ['\n'] start end0 with
    | some i => i + 1
    | none =>
      match pyRfind text ['.', ' '] start end0 with
      | some i => i + 1
      | none =>
        match pyRfind text [' '] start end0 with
        | some i => i + 1
        | none => end0
  else end0

/-- The chunker's `while start < n` loop (summarize.py lines 19–44), with
explicit fuel.  Note the faithful rendering of lines 42–44: `start = end`
followed by `if start == end: start += 1` — the comparison happens after the
assignment, so the next start is always `end + 1`. -/
def chunkLoop (text : List Char) (approx_chars : Nat) : Nat → Nat → List (List Char)
  | 0, _ => []
  | fuel + 1, start =>
    if start < text.length then
      let e := splitEnd text approx_chars start
      let chunk := pyStrip ((text.drop start).take (e - start))
      if chunk = [] then chunkLoop text approx_chars fuel (e + 1)
      else chunk :: chunkLoop text approx_chars fuel (e + 1)
    else []

/-- Function `chunk_text_by_tokens(text, approx_chars)` from summarize.py.  The fuel
`text.length + 1` always suffices because the scan position strictly
increases on every iteration (proved below). -/
def chunk_text_by_tokens (text : List Char) (approx_chars : Nat := 800) : List (List Char) :=
  chunkLoop text approx_chars (text.length + 1) 0

/-- Helper for `pySplitWs`: `acc` holds the current word reversed. -/
def splitWsAux : List Char → List Char → List (List Char)
  | [], acc => if acc.isEmpty then [] else [acc.reverse]
  | c :: rest, acc =>
    if pyIsSpace c then
      if acc.isEmpty then splitWsAux rest [] else acc.reverse :: splitWsAux rest []
    else splitWsAux rest (c :: acc)

/-- Python `s.split()` with no argument: split on whitespace runs, dropping
empty pieces. -/
def pySplitWs (l : List Char) : List (List Char) := splitWsAux l []

/-- The fixed sentinel returned when chunking yields nothing
(summarize.py line 74). -/
def no_content_msg : List Char := "No content to summarize.".data

/-- The per-chunk body of the orchestrator's loop (summarize.py lines 78–95):
chunks of fewer than 10 words pass through unchanged; otherwise one model call
with reduced bounds, falling back to the chunk's first 100 characters when the
call raises (`none`). -/
def summarizeChunk (summarizer : List Char → Nat → Nat → Option (List Char))
    (summary_max_length summary_min_length : Nat) (chunk : List Char) : List Char :=
  if (pySplitWs chunk).length < 10 then chunk
  else
    match summarizer chunk (min 100 summary_max_length) (min 20 summary_min_length) with
    | some s => s
    | none => chunk.take 100

/-- Function `generate_summary` (summarize.py lines 48–103).  The external
summarization model is the oracle `summarizer`; `none` models a raised
exception on that call.  The function is total: every model failure is caught
by a fallback, so the orchestrator itself never raises. -/
def generate_summary (summarizer : List Char → Nat → Nat → Option (List Char))
    (text : List Char) (max_chunk_chars : Nat := 800)
    (summary_max_length : Nat := 150) (summary_min_length : Nat := 40) : List Char :=
  if text.length < 150 then text.take summary_max_length
  else if text.length < 2000 then
    match summarizer text summary_max_length summary_min_length with
    | some s => s
    | none => text.take summary_max_length
  else
    let chunks := chunk_text_by_tokens text max_chunk_chars
    if chunks.isEmpty then no_content_msg
    else
      let summaries := chunks.map (summarizeChunk summarizer summary_max_length summary_min_length)
      match summaries with
      | [s] => s
      | _ => (List.intercalate [' '] summaries).take summary_max_length

/-- A summarization capability that raises on every invocation. -/
def failingSummarizer : List Char → Nat → Nat → Option (List Char) := fun _ _ _ => none

/-- A highlight as returned by `top_k_sentences`: the dict
`{"index": i, "sentence": s, "score": x}`, scores modelled in `ℚ`. -/
structure Highlight where
  index : Nat
  sentence : List Char
  score : ℚ
deriving DecidableEq, Repr

/-- NumPy `np.linspace(1.0, 0.7, n)` (highlight.py line 56): `n` evenly spaced
values from 1 down to 7/10 inclusive. -/
def position_weights (n : Nat) : List ℚ :=
  if n ≤ 1 then List.replicate n 1
  else (List.range n).map fun i : Nat => 1 - (3 / 10 : ℚ) * (i : ℚ) / ((n : ℚ) - 1)

/-- NumPy `np.argsort(scores)`: the indices `0 .. len-1` reordered so that the
scores are ascending.  NumPy's default sort is unstable, so the order of tied
scores is implementation-defined; a stable insertion sort is one admissible
realisation. -/
def argsortAsc (scores : List ℚ) : List Nat :=
  List.insertionSort (fun i j => scores.getD i 0 ≤ scores.getD j 0)
    (List.range scores.length)

/-- Function `top_k_sentences` (highlight.py lines 27–73) factored over the sentence
list.  `sims = some simScores` models a successful TF-IDF/cosine computation
returning one similarity score per sentence; `sims = none` models an
exception raised inside the `try` block.  The slice `[-k:][::-1]` of
line 61 is `drop (len - k)` then `reverse` (for `k = 0` Python's `[-0:]` is
the whole array). -/
def top_k_from (sentences : List (List Char)) (sims : Option (List ℚ)) (k : Nat) :
    List Highlight :=
  let n := sentences.length
  if n = 0 then []
  else if n ≤ k then
    sentences.enum.map fun p => ⟨p.1, p.2, 1⟩
  else
    match sims with
    | some simScores =>
      let combined := List.zipWith (· * ·) simScores (position_weights n)
      let k' := min k n
      let asc := argsortAsc combined
      let top := if k' = 0 then asc.reverse else (asc.drop (asc.length - k')).reverse
      top.map fun idx => ⟨idx, sentences.getD idx [], combined.getD idx 0⟩
    | none =>
      (List.range (min k n)).map fun i => ⟨i, sentences.getD i [], 1 / 2⟩

/-- Is `c` one of `.`, `!`, `?` (the lookbehind class of the fallback regex)? -/
def isSentEnd (c : Char) : Bool := c = '.' || c = '!' || c = '?'

/-- The regex fallback `re.split(r'(?<=[.!?])\s+', text)` (highlight.py
line 24): cut at every maximal whitespace run immediately preceded by `.`,
`!` or `?`.  The state is `some acc` (building the current piece, reversed,
so its head is the character before the scan position — the lookbehind) or
`none` (inside a matched whitespace run being consumed). -/
def regexSplitAux : List Char → Option (List Char) → List (List Char)
  | [], some acc => [acc.reverse]
  | [], none => [[]]
  | c :: rest, some acc =>
    if pyIsSpace c && (match acc with | p :: _ => isSentEnd p | [] => false) then
      acc.reverse :: regexSplitAux rest none
    else
      regexSplitAux rest (some (c :: acc))
  | c :: rest, none =>
    if pyIsSpace c then regexSplitAux rest none
    else regexSplitAux rest (some [c])

/-- Function `split_into_sentences` (highlight.py lines 7–25).  The NLTK tokenizer is
an external capability (spec §6) that may be absent; the in-repo regex
fallback is what is modelled.  Pieces are stripped and empty ones dropped. -/
def split_into_sentences (text : List Char) : List (List Char) :=
  ((regexSplitAux text (some [])).map pyStrip).filter fun s => !s.isEmpty

/-- Function `top_k_sentences(original_text, summary_text, k)`.  The summary takes part
only through the external vectorizer, abstracted as the oracle `sims`. -/
def top_k_sentences (text summary : List Char) (sims : Option (List ℚ))
    (k : Nat := 5) : List Highlight :=
  top_k_from (split_into_sentences text) sims k

/-- The body of the extractor's page loop (extract.py lines 11–14):
`if page_text: text += page_text + "\n"`.  Python's `if page_text:` is false
both for `None` and for an empty string, so such pages contribute nothing. -/
def extractPage (text : List Char) (p : Option (List Char)) : List Char :=
  match p with
  | some pt => if pt.isEmpty then text else text ++ pt ++ ['\n']
  | none => text

/-- Function `extract_text_from_pdf_fileobj` (extract.py lines 4–18) over an abstract
ordered page sequence; `none` models `page.extract_text()` returning `None`. -/
def extract_text_from_pdf_fileobj (pages : List (Option (List Char))) : List Char :=
  pages.foldl extractPage []

/-- The texts of the pages that yield text, in page order. -/
def contributingPages (pages : List (Option (List Char))) : List (List Char) :=
  (pages.filterMap id).filter fun t => !t.isEmpty

/-- The spec's wording for the PDF extractor's result, for comparison:
the texts of the pages that yield text, "concatenated in page order with a
newline separator between pages". -/
def pdf_concat_spec (pages : List (Option (List Char))) : List Char :=
  List.intercalate ['\n'] (contributingPages pages)

/-- Highlights are listed in non-increasing score order. -/
def sortedByScore (l : List Highlight) : Prop :=
  l.Pairwise fun a b => b.score ≤ a.score

/-- No two highlights carry the same sentence index. -/
def distinctIndices (l : List Highlight) : Prop :=
  l.Pairwise fun a b => a.index ≠ b.index

/-- Every highlight's index is in range and its sentence field is the
sentence at that index. -/
def indexedFrom (sentences : List (List Char)) (l : List Highlight) : Prop :=
  ∀ h ∈ l, h.index < sentences.length ∧ h.sentence = sentences.getD h.index []

/-! ## Sanity evaluations of the embedding on concrete inputs -/

theorem chunk_eval_hard_cut :
    (chunk_text_by_tokens (List.replicate 10 'a') 3).map List.length = [3, 3, 2] := by
  decide

theorem chunk_eval_newline :
    chunk_text_by_tokens ['a', 'b', '\n', 'c', 'd'] 4 = [['a', 'b'], ['d']] := by
  decide

theorem split_sentences_eval :
    split_into_sentences ['H', 'i', '.', ' ', 'B', '!', ' ', ' ', 'O'] =
      [['H', 'i', '.'], ['B', '!'], ['O']] := by decide

theorem top_k_few_eval : top_k_from [['a'], ['b']] none 5 = [⟨0, ['a'], 1⟩, ⟨1, ['b'], 1⟩] := by
  norm_num [top_k_from, List.enum, List.enumFrom, Highlight.mk.injEq]

theorem top_k_fallback_eval : top_k_from [['a'], ['b'], ['c']] none 2 =
    [⟨0, ['a'], 1 / 2⟩, ⟨1, ['b'], 1 / 2⟩] := by
  norm_num [top_k_from, List.range_succ, Highlight.mk.injEq]

theorem top_k_tfidf_eval : top_k_from [['a'], ['b'], ['c']] (some [1, 5, 3]) 2 =
    [⟨1, ['b'], 5 * (17 / 20)⟩, ⟨2, ['c'], 3 * (7 / 10)⟩] := by
  norm_num [top_k_from, argsortAsc, position_weights, List.range_succ,
    List.insertionSort, List.orderedInsert, Highlight.mk.injEq]

theorem extract_eval : extract_text_from_pdf_fileobj [some ['a'], none, some ['b']] =
    ['a', '\n', 'b', '\n'] := by decide

/-! ## Properties of the chunker -/

theorem chunkLoop_of_len_le (text : List Char) (B fuel start : Nat)
    (h : text.length ≤ start) : chunkLoop text B fuel start = [] := by
  cases fuel with
  | zero => rfl
  | succ f => simp [chunkLoop, Nat.not_lt.mpr h]

theorem rfindAux_ge (text sub : List Char) (s : Nat) :
    ∀ j i, rfindAux text sub s j = some i → s ≤ i := by
  intro j
  induction j with
  | zero => intro i h; simp [rfindAux] at h
  | succ j ih =>
    intro i h
    by_cases hm : matchAt text sub (s + j)
    · simp [rfindAux, hm] at h
      omega
    · simp [rfindAux, hm] at h
      exact ih i h

/-- The boundary search never moves the split point before the window start. -/
theorem splitEnd_ge (text : List Char) (B start : Nat) (h : start ≤ text.length) :
    start ≤ splitEnd text B start := by
  have h0 : start ≤ min text.length (start + B) := le_min h (Nat.le_add_right _ _)
  simp only [splitEnd]
  split
  · split
    · next i heq =>
      have := rfindAux_ge text ['\n'] start _ i heq
      omega
    · split
      · next i heq =>
        have := rfindAux_ge text ['.', ' '] start _ i heq
        omega
      · split
        · next i heq =>
          have := rfindAux_ge text [' '] start _ i heq
          omega
        · exact h0
  · exact h0

/-- The loop result does not depend on the fuel once the fuel covers the
remaining text: the scan position strictly increases every iteration. -/
theorem chunkLoop_fuel_eq (text : List Char) (B : Nat) :
    ∀ fuel₁ fuel₂ start, text.length ≤ start + fuel₁ → text.length ≤ start + fuel₂ →
      chunkLoop text B fuel₁ start = chunkLoop text B fuel₂ start := by
  intro fuel₁
  induction fuel₁ with
  | zero =>
    intro fuel₂ start h1 h2
    rw [chunkLoop_of_len_le _ _ _ _ (by omega), chunkLoop_of_len_le _ _ _ _ (by omega)]
  | succ f ih =>
    intro fuel₂ start h1 h2
    by_cases hs : start < text.length
    · cases fuel₂ with
      | zero => exact absurd hs (by omega)
      | succ g =>
        have hge := splitEnd_ge text B start (le_of_lt hs)
        have hrec := ih g (splitEnd text B start + 1) (by omega) (by omega)
        simp only [chunkLoop, if_pos hs]
        rw [hrec]
    · rw [chunkLoop_of_len_le _ _ _ _ (by omega), chunkLoop_of_len_le _ _ _ _ (by omega)]

/-- C8: for every text and budget B ≥ 1 the chunker terminates: the scan
position strictly increases on every iteration (`start < splitEnd + 1`), so
the loop reaches a fixpoint within `length + 1` iterations — running it with
any larger fuel returns the same finite chunk list. -/
theorem c8_chunker_terminates (text : List Char) (B fuel start : Nat) (hB : 1 ≤ B)
    (hf : text.length + 1 ≤ fuel) (hs : start < text.length) :
    chunkLoop text B fuel 0 = chunk_text_by_tokens text B ∧
    start < splitEnd text B start + 1 := by
  constructor
  · exact chunkLoop_fuel_eq text B fuel (text.length + 1) 0 (by omega) (by omega)
  · have := splitEnd_ge text B start (le_of_lt hs)
    omega

/-- Witness for C8 at `text = ['a', 'b']`, `B = 1`, `fuel = 5`, `start = 0`. -/
theorem c8_witness :
    chunkLoop ['a', 'b'] 1 5 0 = chunk_text_by_tokens ['a', 'b'] 1 ∧
    0 < splitEnd ['a', 'b'] 1 0 + 1 :=
  c8_chunker_terminates ['a', 'b'] 1 5 0 (by decide) (by decide) (by decide)

/-- C1 fails on the code: with `text = "ab\ncd"` and budget 4 the newline at
index 2 is found, the chunk `"ab\n"` (trimmed to `"ab"`) is cut at index 3,
and lines 42–44 then advance the scan position to 4, silently dropping the
non-separator character `'c'` at index 3.  No re-insertion of consumed
separators can reproduce the original text. -/
theorem c1_chunker_omits_characters :
    chunk_text_by_tokens ['a', 'b', '\n', 'c', 'd'] 4 = [['a', 'b'], ['d']] ∧
    'c' ∈ ['a', 'b', '\n', 'c', 'd'] ∧
    'c' ∉ (chunk_text_by_tokens ['a', 'b', '\n', 'c', 'd'] 4).flatten := by
  decide

/-- C2 fails on the code: for `"a" * 10` with budget 3 the chunk sizes are
`[3, 3, 2]`, not `[3, 3, 3, 1]` — after each hard cut the scan position jumps
one character past the cut (lines 42–44), dropping the characters at
indices 3 and 7. -/
theorem c2_chunk_sizes_edge_case :
    (chunk_text_by_tokens (List.replicate 10 'a') 3).map List.length = [3, 3, 2] ∧
    (chunk_text_by_tokens (List.replicate 10 'a') 3).map List.length ≠ [3, 3, 3, 1] := by
  decide

/-! ## Zero chunk budget -/

theorem pyRfind_self (text sub : List Char) (s : Nat) (hsub : 1 ≤ sub.length) :
    pyRfind text sub s s = none := by
  have h : s + 1 - sub.length - s = 0 := by omega
  simp [pyRfind, h, rfindAux]

theorem splitEnd_zero (text : List Char) (start : Nat) (h : start < text.length) :
    splitEnd text 0 start = start := by
  have h1 : min text.length (start + 0) = start := by omega
  simp only [splitEnd, h1, if_pos h]
  rw [pyRfind_self text ['\n'] start (by decide), pyRfind_self text ['.', ' '] start (by decide),
    pyRfind_self text [' '] start (by decide)]

theorem chunkLoop_zero_budget (text : List Char) :
    ∀ fuel start, chunkLoop text 0 fuel start = [] := by
  intro fuel
  induction fuel with
  | zero => intro start; rfl
  | succ f ih =>
    intro start
    by_cases hs : start < text.length
    · simp only [chunkLoop, if_pos hs, splitEnd_zero text start hs]
      simp [pyStrip, ih]
    · simp [chunkLoop, hs]

/-- With a zero budget every window is empty, every chunk is trimmed away,
and the loop walks off the end one character at a time: no chunks at all. -/
theorem chunk_text_zero_budget (text : List Char) : chunk_text_by_tokens text 0 = [] :=
  chunkLoop_zero_budget text _ 0

/-- C7 as stated is false on the code: there is no `OrchestrationError`
anywhere; on a long text with chunk budget 0, `generate_summary` returns the
sentinel string normally instead of failing. -/
theorem c7_counterexample :
    generate_summary failingSummarizer (List.replicate 2000 'a') 0 150 40 = no_content_msg := by
  unfold generate_summary
  rw [if_neg (by simp only [List.length_replicate]; omega),
    if_neg (by simp only [List.length_replicate]; omega)]
  simp [chunk_text_zero_budget]

/-- C7 (amended): invoked on a long text (length ≥ 2000) with chunk budget 0,
`generate_summary` does not raise: chunking yields no chunks and the sentinel
`"No content to summarize."` is returned, for every summarization oracle. -/
theorem c7_zero_budget_returns_sentinel
    (summarizer : List Char → Nat → Nat → Option (List Char)) (text : List Char)
    (maxL minL : Nat) (h : 2000 ≤ text.length) :
    generate_summary summarizer text 0 maxL minL = no_content_msg := by
  unfold generate_summary
  rw [if_neg (by omega), if_neg (by omega)]
  simp [chunk_text_zero_budget]

/-- Witness for C7's amended theorem at a length-2000 text. -/
theorem c7_witness :
    2000 ≤ (List.replicate 2000 'a').length ∧
    generate_summary (fun _ _ _ => some ['s']) (List.replicate 2000 'a') 0 150 40 =
      no_content_msg :=
  ⟨by simp only [List.length_replicate, le_refl], c7_zero_budget_returns_sentinel
    (fun _ _ _ => some ['s']) (List.replicate 2000 'a') 150 40
    (by simp only [List.length_replicate, le_refl])⟩

/-! ## The orchestrator's medium-text fallback -/

/-- C3: on a medium text (150 ≤ length < 2000), if the summarization
capability raises on every invocation, `generate_summary` does not raise and
returns the text truncated to `summary_max_length`. -/
theorem c3_medium_text_always_failing_fallback (text : List Char) (B maxL minL : Nat)
    (h1 : 150 ≤ text.length) (h2 : text.length < 2000) :
    generate_summary failingSummarizer text B maxL minL = text.take maxL := by
  unfold generate_summary failingSummarizer
  rw [if_neg (by omega), if_pos h2]

/-- Witness for C3 at a length-1500 text. -/
theorem c3_witness :
    150 ≤ (List.replicate 1500 'a').length ∧ (List.replicate 1500 'a').length < 2000 ∧
    generate_summary failingSummarizer (List.replicate 1500 'a') 800 150 40 =
      (List.replicate 1500 'a').take 150 :=
  ⟨by simp only [List.length_replicate]; decide, by simp only [List.length_replicate]; decide,
    c3_medium_text_always_failing_fallback (List.replicate 1500 'a') 800 150 40
    (by simp only [List.length_replicate]; decide) (by simp only [List.length_replicate]; decide)⟩

/-! ## The PDF extractor -/

theorem extract_foldl (pages : List (Option (List Char))) :
    ∀ acc, pages.foldl extractPage acc =
      acc ++ ((contributingPages pages).map fun t => t ++ ['\n']).flatten := by
  induction pages with
  | nil => intro acc; simp [contributingPages]
  | cons p rest ih =>
    intro acc
    cases p with
    | none => simp [extractPage, contributingPages, ih acc]
    | some pt =>
      by_cases hpt : pt.isEmpty
      · simp [extractPage, hpt, contributingPages, ih acc]
      · rw [List.foldl_cons,
          show extractPage acc (some pt) = acc ++ pt ++ ['\n'] from by simp [extractPage, hpt],
          ih (acc ++ pt ++ ['\n'])]
        simp [contributingPages, hpt]

/-- C9 as stated is false on the code: the extractor appends a newline after
every contributing page (a terminator), so with pages `["a", "b"]` it returns
`"a\nb\n"`, not the separator-joined `"a\nb"` the claim describes. -/
theorem c9_counterexample :
    extract_text_from_pdf_fileobj [some ['a'], some ['b']] = ['a', '\n', 'b', '\n'] ∧
    pdf_concat_spec [some ['a'], some ['b']] = ['a', '\n', 'b'] ∧
    extract_text_from_pdf_fileobj [some ['a'], some ['b']] ≠
      pdf_concat_spec [some ['a'], some ['b']] := by
  decide

/-- C9 (amended): the extractor returns the texts of the pages that yield
text, in page order, each followed by one newline (so the result carries a
trailing newline); pages yielding no text — or empty text — contribute
nothing. -/
theorem c9_pdf_newline_terminated (pages : List (Option (List Char))) :
    extract_text_from_pdf_fileobj pages =
      ((contributingPages pages).map fun t => t ++ ['\n']).flatten := by
  show pages.foldl extractPage [] = _
  simpa using extract_foldl pages []

/-! ## Properties of the highlighter -/

theorem position_weights_length (n : Nat) : (position_weights n).length = n := by
  unfold position_weights
  split
  · rw [List.length_replicate]
  · rw [List.length_map, List.length_range]

theorem argsortAsc_perm (scores : List ℚ) :
    (argsortAsc scores).Perm (List.range scores.length) :=
  List.perm_insertionSort _ _

theorem argsortAsc_length (scores : List ℚ) : (argsortAsc scores).length = scores.length := by
  simpa using (argsortAsc_perm scores).length_eq

theorem argsortAsc_mem {scores : List ℚ} {i : Nat} (h : i ∈ argsortAsc scores) :
    i < scores.length := by
  simpa using (argsortAsc_perm scores).mem_iff.mp h

theorem argsortAsc_nodup (scores : List ℚ) : (argsortAsc scores).Nodup :=
  ((argsortAsc_perm scores).nodup_iff).mpr (List.nodup_range _)

theorem argsortAsc_sorted (scores : List ℚ) :
    (argsortAsc scores).Pairwise fun i j => scores.getD i 0 ≤ scores.getD j 0 := by
  haveI : IsTotal Nat fun i j => scores.getD i 0 ≤ scores.getD j 0 :=
    ⟨fun a b => le_total _ _⟩
  haveI : IsTrans Nat fun i j => scores.getD i 0 ≤ scores.getD j 0 :=
    ⟨fun a b c => le_trans⟩
  exact List.sorted_insertionSort _ _

theorem pairwise_const {α : Type} {R : α → α → Prop} (hR : ∀ a b, R a b) :
    ∀ l : List α, l.Pairwise R := by
  intro l
  induction l with
  | nil => exact List.Pairwise.nil
  | cons a t ih => exact List.Pairwise.cons (fun b _ => hR a b) ih

/-- Python `enumerate`-then-build rewritten as a map over plain indices. -/
theorem enumFrom_map_highlight (H : Nat → List Char → Highlight) :
    ∀ (l : List (List Char)) (off : Nat),
      (l.enumFrom off).map (fun p => H p.1 p.2) =
        (List.range l.length).map fun i => H (off + i) (l.getD i []) := by
  intro l
  induction l with
  | nil => intro off; rfl
  | cons a t ih =>
    intro off
    rw [show (a :: t).enumFrom off = (off, a) :: t.enumFrom (off + 1) from rfl,
      List.map_cons, ih (off + 1), List.length_cons, List.range_succ_eq_map,
      List.map_cons, List.map_map]
    refine congrArg₂ _ (by simp) ((List.map_congr_left fun i _ => ?_).symm)
    show H (off + (i + 1)) (t.getD i []) = H (off + 1 + i) (t.getD i [])
    congr 1
    omega

theorem enum_map_highlight (H : Nat → List Char → Highlight) (l : List (List Char)) :
    l.enum.map (fun p => H p.1 p.2) = (List.range l.length).map fun i => H i (l.getD i []) := by
  simpa using enumFrom_map_highlight H l 0

/-- Highlights built by mapping a construction over a list of in-range,
pairwise-distinct indices are well indexed. -/
theorem indexed_map_wf (sentences : List (List Char)) (f : Nat → ℚ) (idxs : List Nat)
    (hnd : idxs.Nodup) (hlt : ∀ i ∈ idxs, i < sentences.length) :
    distinctIndices (idxs.map fun i => ⟨i, sentences.getD i [], f i⟩) ∧
    indexedFrom sentences (idxs.map fun i => ⟨i, sentences.getD i [], f i⟩) := by
  constructor
  · exact List.pairwise_map.mpr hnd
  · intro h hmem
    rcases List.mem_map.mp hmem with ⟨i, hi, rfl⟩
    exact ⟨hlt i hi, rfl⟩

/-- On every path of `top_k_from` the returned indices are pairwise distinct,
in range, and each highlight carries the sentence at its index. -/
theorem top_k_from_wf (sentences : List (List Char)) (sims : Option (List ℚ)) (k : Nat) :
    distinctIndices (top_k_from sentences sims k) ∧
    indexedFrom sentences (top_k_from sentences sims k) := by
  by_cases h0 : sentences.length = 0
  · simp [top_k_from, h0, distinctIndices, indexedFrom]
  by_cases hk : sentences.length ≤ k
  · simp only [top_k_from, if_neg h0, if_pos hk]
    rw [enum_map_highlight (fun i s => ⟨i, s, 1⟩) sentences]
    exact indexed_map_wf sentences (fun _ => 1) (List.range sentences.length)
      (List.nodup_range _) (fun i hi => List.mem_range.mp hi)
  · simp only [top_k_from, if_neg h0, if_neg hk]
    cases sims with
    | none =>
      exact indexed_map_wf sentences (fun _ => 1 / 2) (List.range (min k sentences.length))
        (List.nodup_range _)
        (fun i hi => lt_of_lt_of_le (List.mem_range.mp hi) (Nat.min_le_right _ _))
    | some simScores =>
      dsimp only
      have htop : ∀ (scores : List ℚ) (top : List Nat), scores.length ≤ sentences.length →
          top.Nodup → (∀ i ∈ top, i < scores.length) →
          distinctIndices (top.map fun idx => ⟨idx, sentences.getD idx [], scores.getD idx 0⟩) ∧
          indexedFrom sentences
            (top.map fun idx => ⟨idx, sentences.getD idx [], scores.getD idx 0⟩) :=
        fun scores top hsl hnd hlt => indexed_map_wf sentences (fun i => scores.getD i 0) top hnd
          (fun i hi => lt_of_lt_of_le (hlt i hi) hsl)
      have hcl : (List.zipWith (· * ·) simScores (position_weights sentences.length)).length ≤
          sentences.length := by
        rw [List.length_zipWith, position_weights_length]
        exact Nat.min_le_right _ _
      by_cases hk0 : min k sentences.length = 0
      · rw [if_pos hk0]
        exact htop _ _ hcl (List.nodup_reverse.mpr (argsortAsc_nodup _))
          (fun i hi => argsortAsc_mem (List.mem_reverse.mp hi))
      · rw [if_neg hk0]
        exact htop _ _ hcl
          (List.nodup_reverse.mpr ((argsortAsc_nodup _).sublist (List.drop_sublist _ _)))
          (fun i hi => argsortAsc_mem
            ((List.drop_sublist _ _).mem (List.mem_reverse.mp hi)))

/-- C10: on every path of `top_k_sentences` (few-sentences, TF-IDF success,
and failure fallback), the returned highlight indices are pairwise distinct,
each index `i` satisfies `i < sentence_count`, and each highlight's sentence
is the `i`-th sentence produced by `split_into_sentences`. -/
theorem c10_highlights_well_indexed (text summary : List Char) (sims : Option (List ℚ))
    (k : Nat) (hk : 1 ≤ k) :
    distinctIndices (top_k_sentences text summary sims k) ∧
    indexedFrom (split_into_sentences text) (top_k_sentences text summary sims k) :=
  top_k_from_wf (split_into_sentences text) sims k

/-- Witness for C10 on a two-sentence text with a failing vectorizer. -/
theorem c10_witness :
    1 ≤ 2 ∧
    (distinctIndices (top_k_sentences ['a', '.', ' ', 'b'] ['s'] none 2) ∧
      indexedFrom (split_into_sentences ['a', '.', ' ', 'b'])
        (top_k_sentences ['a', '.', ' ', 'b'] ['s'] none 2)) :=
  ⟨by decide, c10_highlights_well_indexed ['a', '.', ' ', 'b'] ['s'] none 2 (by decide)⟩

/-- C6: if the original text yields at most `k` sentences, every sentence is
returned as a highlight in original order, with score exactly 1 and index
equal to its 0-based position — for any oracle, since the few-sentences path
precedes the `try` block. -/
theorem c6_few_sentences_all_returned (text summary : List Char) (sims : Option (List ℚ))
    (k : Nat) (h : (split_into_sentences text).length ≤ k) :
    top_k_sentences text summary sims k =
      (split_into_sentences text).enum.map fun p => ⟨p.1, p.2, 1⟩ := by
  show top_k_from _ _ _ = _
  rcases eq_or_ne (split_into_sentences text).length 0 with h0 | h0
  · simp only [top_k_from, if_pos h0]
    rw [List.length_eq_zero.mp h0]
    rfl
  · simp only [top_k_from, if_neg h0, if_pos h]

/-- Witness for C6 on a one-sentence text. -/
theorem c6_witness :
    (split_into_sentences ['H', 'i', '.']).length ≤ 5 ∧
    top_k_sentences ['H', 'i', '.'] ['s'] none 5 = [⟨0, ['H', 'i', '.'], 1⟩] :=
  ⟨by decide, (c6_few_sentences_all_returned ['H', 'i', '.'] ['s'] none 5 (by decide)).trans
    (by rfl)⟩

/-- C5: when the TF-IDF path runs (more sentences than `k`) and the
vectorization/scoring step raises, `top_k_sentences` returns exactly the
first `min(k, sentence_count)` sentences in original order, each with
score 1/2; the fallback is a total computation, so it never raises. -/
theorem c5_vectorization_failure_fallback (text summary : List Char) (k : Nat)
    (h : k < (split_into_sentences text).length) :
    top_k_sentences text summary none k =
      (List.range (min k (split_into_sentences text).length)).map
        fun i => ⟨i, (split_into_sentences text).getD i [], 1 / 2⟩ := by
  show top_k_from _ _ _ = _
  simp only [top_k_from, if_neg (by omega : ¬(split_into_sentences text).length = 0),
    if_neg (Nat.not_le.mpr h)]

/-- Witness for C5 on a three-sentence text with `k = 2`. -/
theorem c5_witness :
    2 < (split_into_sentences ['a', '.', ' ', 'b', '.', ' ', 'c']).length ∧
    top_k_sentences ['a', '.', ' ', 'b', '.', ' ', 'c'] ['s'] none 2 =
      [⟨0, ['a', '.'], 1 / 2⟩, ⟨1, ['b', '.'], 1 / 2⟩] :=
  ⟨by decide,
    (c5_vectorization_failure_fallback ['a', '.', ' ', 'b', '.', ' ', 'c'] ['s'] 2
      (by decide)).trans (by rfl)⟩

/-- Sortedness and size of the TF-IDF success path, over any sentence list
and any per-sentence similarity scores. -/
theorem top_k_from_sorted_and_length (sentences : List (List Char)) (simScores : List ℚ)
    (k : Nat) (hk : 1 ≤ k) (hlen : simScores.length = sentences.length) :
    sortedByScore (top_k_from sentences (some simScores) k) ∧
    (top_k_from sentences (some simScores) k).length = min k sentences.length := by
  by_cases h0 : sentences.length = 0
  · simp [top_k_from, h0, sortedByScore]
  by_cases hk' : sentences.length ≤ k
  · simp only [top_k_from, if_neg h0, if_pos hk']
    constructor
    · rw [enum_map_highlight (fun i s => ⟨i, s, 1⟩) sentences]
      exact List.pairwise_map.mpr (pairwise_const (fun a b => le_refl (1 : ℚ)) _)
    · simp [Nat.min_eq_right hk']
  · simp only [top_k_from, if_neg h0, if_neg hk']
    have hcl : (List.zipWith (· * ·) simScores (position_weights sentences.length)).length =
        sentences.length := by
      rw [List.length_zipWith, position_weights_length, hlen, Nat.min_self]
    rw [if_neg (show ¬min k sentences.length = 0 by omega)]
    constructor
    · apply List.pairwise_map.mpr
      apply List.pairwise_reverse.mpr
      exact List.Pairwise.sublist (List.drop_sublist _ _) (argsortAsc_sorted _)
    · rw [List.length_map, List.length_reverse, List.length_drop, argsortAsc_length, hcl]
      omega

/-- C4: whenever the TF-IDF vectorization path succeeds (modelled by a
score list with one similarity score per sentence), the returned highlight
list is sorted by non-increasing combined score and its length is
`min(k, sentence_count)`. -/
theorem c4_tfidf_sorted_and_count (text summary : List Char) (simScores : List ℚ)
    (k : Nat) (hk : 1 ≤ k)
    (hlen : simScores.length = (split_into_sentences text).length) :
    sortedByScore (top_k_sentences text summary (some simScores) k) ∧
    (top_k_sentences text summary (some simScores) k).length =
      min k (split_into_sentences text).length :=
  top_k_from_sorted_and_length (split_into_sentences text) simScores k hk hlen

/-- Witness for C4 on a three-sentence text with scores `[1, 5, 3]`, `k = 2`. -/
theorem c4_witness :
    1 ≤ 2 ∧
    ([1, 5, 3] : List ℚ).length = (split_into_sentences ['a', '.', ' ', 'b', '.', ' ', 'c']).length ∧
    (sortedByScore (top_k_sentences ['a', '.', ' ', 'b', '.', ' ', 'c'] ['s'] (some [1, 5, 3]) 2) ∧
      (top_k_sentences ['a', '.', ' ', 'b', '.', ' ', 'c'] ['s'] (some [1, 5, 3]) 2).length =
        min 2 (split_into_sentences ['a', '.', ' ', 'b', '.', ' ', 'c']).length) :=
  ⟨by decide, by rfl,
    c4_tfidf_sorted_and_count ['a', '.', ' ', 'b', '.', ' ', 'c'] ['s'] [1, 5, 3] 2
      (by decide) (by rfl)⟩

end Smith
